import Mathlib

/-!
# Verification of the GPU dataset layer of LightAutoML_GPU

Shallow embedding of `lightautoml_gpu/dataset/gpu/gpu_dataset.py` and
`lightautoml_gpu/validation/utils.py`, together with theorems settling the
frozen claims about this code.

Conventions of the embedding:
* numpy / cupy dtypes are modelled by the inductive `DType`, and
  `cp.find_common_type` by a fold of the binary promotion function
  `promoteTypes` (numpy's promotion on the modelled dtypes);
* a cupy array is modelled by its dtype and shape (`CpArray`) — the claims
  about the dense backend only concern dtypes and state mutation;
* cudf table cells are modelled by `Value` (integers and strings), a cudf
  column by its dtype plus its cells (`TColumn`), a table by an ordered
  association list of named columns;
* Python in-place mutation of `self` is modelled by explicit state passing:
  a method that mutates `self` and may raise becomes a function returning
  the (possibly partially) mutated state together with `Option String`
  (`some msg` = the exception raised, after the mutations performed up to
  the raise);
* a caller-supplied `dict` that a constructor mutates in place is modelled
  by returning the final contents of that dict to the caller alongside the
  constructed object.
-/

/-- The numpy/cupy dtypes that occur in the claims, plus `object` (the
non-numeric catch-all) and `datetime64`. -/
inductive DType where
  | dtBool
  | dtInt32
  | dtInt64
  | dtFloat32
  | dtFloat64
  | dtDatetime
  | dtObject
deriving DecidableEq, Repr, Fintype

open DType

/-- `np.issubdtype (d, np.number)`: the numeric dtypes.  `bool_` and
`datetime64` are not numbers in numpy, nor is `object`. -/
def DType.isNumeric : DType → Bool
  | dtInt32 => true
  | dtInt64 => true
  | dtFloat32 => true
  | dtFloat64 => true
  | _ => false

/-- numpy's binary type promotion (`np.promote_types`) restricted to the
modelled dtypes.  Mixing an integer with `float32` promotes to `float64`
(numpy widens so that the integer range is representable); anything mixed
with `object`, or `datetime64` mixed with a different dtype, gives
`object`. -/
def promoteTypes : DType → DType → DType
  | dtBool, d => d
  | d, dtBool => d
  | dtObject, _ => dtObject
  | _, dtObject => dtObject
  | dtDatetime, dtDatetime => dtDatetime
  | dtDatetime, _ => dtObject
  | _, dtDatetime => dtObject
  | dtInt32, dtInt32 => dtInt32
  | dtInt32, dtInt64 => dtInt64
  | dtInt64, dtInt32 => dtInt64
  | dtInt64, dtInt64 => dtInt64
  | dtFloat32, dtFloat32 => dtFloat32
  | dtFloat32, dtFloat64 => dtFloat64
  | dtFloat64, dtFloat32 => dtFloat64
  | dtFloat64, dtFloat64 => dtFloat64
  | dtInt32, dtFloat32 => dtFloat64
  | dtInt32, dtFloat64 => dtFloat64
  | dtInt64, dtFloat32 => dtFloat64
  | dtInt64, dtFloat64 => dtFloat64
  | dtFloat32, dtInt32 => dtFloat64
  | dtFloat64, dtInt32 => dtFloat64
  | dtFloat32, dtInt64 => dtFloat64
  | dtFloat64, dtInt64 => dtFloat64

/-- `cp.find_common_type (dtypes, [])`: fold of binary promotion.
`dtBool` is the neutral element of `promoteTypes`, so the fold needs no
special nonempty handling; the claims only use nonempty lists. -/
def findCommonType (l : List DType) : DType :=
  l.foldl promoteTypes dtBool

/-- The subtyping ("safely represents") order on the modelled dtypes:
`subsumes a b` says every value of dtype `a` is representable in dtype `b`.
`float32` does **not** subsume `int32` (24-bit mantissa), which is why the
narrowest common supertype of `{int32, float32}` is `float64`. -/
def subsumes : DType → DType → Bool
  | dtBool, _ => true
  | dtInt32, dtInt32 => true
  | dtInt32, dtInt64 => true
  | dtInt32, dtFloat64 => true
  | dtInt64, dtInt64 => true
  | dtInt64, dtFloat64 => true
  | dtFloat32, dtFloat32 => true
  | dtFloat32, dtFloat64 => true
  | dtFloat64, dtFloat64 => true
  | dtDatetime, dtDatetime => true
  | _, dtObject => true
  | _, _ => false

lemma subsumes_refl (d : DType) : subsumes d d = true := by
  cases d <;> rfl

lemma subsumes_trans {a b c : DType} (h₁ : subsumes a b = true)
    (h₂ : subsumes b c = true) : subsumes a c = true := by
  have h : ∀ x y z : DType,
      subsumes x y = true → subsumes y z = true → subsumes x z = true := by
    decide
  exact h a b c h₁ h₂

lemma subsumes_promote_left (a b : DType) :
    subsumes a (promoteTypes a b) = true := by
  revert a b; decide

lemma subsumes_promote_right (a b : DType) :
    subsumes b (promoteTypes a b) = true := by
  revert a b; decide

/-- `promoteTypes` is the join of the `subsumes` order. -/
lemma promote_least {a b u : DType} (ha : subsumes a u = true)
    (hb : subsumes b u = true) : subsumes (promoteTypes a b) u = true := by
  have h : ∀ x y u : DType, subsumes x u = true → subsumes y u = true →
      subsumes (promoteTypes x y) u = true := by decide
  exact h a b u ha hb

lemma subsumes_foldl {l : List DType} {u d : DType}
    (hd : subsumes d u = true) (hl : ∀ x ∈ l, subsumes x u = true) :
    subsumes (l.foldl promoteTypes d) u = true := by
  induction l generalizing d with
  | nil => exact hd
  | cons a l ih =>
      exact ih (promote_least hd (hl a (by simp)))
        (fun x hx => hl x (by simp [hx]))

lemma base_subsumes_foldl (l : List DType) (d : DType) :
    subsumes d (l.foldl promoteTypes d) = true := by
  induction l generalizing d with
  | nil => exact subsumes_refl d
  | cons a l ih =>
      exact subsumes_trans (subsumes_promote_left d a) (ih (promoteTypes d a))

lemma mem_subsumes_foldl {l : List DType} {d x : DType} (hx : x ∈ l) :
    subsumes x (l.foldl promoteTypes d) = true := by
  induction l generalizing d with
  | nil => cases hx
  | cons a l ih =>
      rcases List.mem_cons.mp hx with h | h
      · subst h
        exact subsumes_trans (subsumes_promote_right d x)
          (base_subsumes_foldl l (promoteTypes d x))
      · exact ih h

/-- `findCommonType l` is an upper bound of `l` in the `subsumes` order. -/
lemma findCommonType_upper {l : List DType} {x : DType} (hx : x ∈ l) :
    subsumes x (findCommonType l) = true :=
  mem_subsumes_foldl hx

/-- `findCommonType l` is below every upper bound of `l`:
together with `findCommonType_upper` it is the least common supertype. -/
lemma findCommonType_least {l : List DType} {u : DType}
    (h : ∀ x ∈ l, subsumes x u = true) :
    subsumes (findCommonType l) u = true :=
  subsumes_foldl (by cases u <;> rfl) h

/-- Numeric dtypes are closed under promotion, and promotion of a
non-numeric dtype is never numeric. -/
lemma promote_numeric (a b : DType) :
    (promoteTypes a b).isNumeric = true ↔
      ((a = dtBool ∨ a.isNumeric) ∧ (b = dtBool ∨ b.isNumeric)
        ∧ ¬(a = dtBool ∧ b = dtBool)) := by
  revert a b; decide

/-- A cupy 2-D array, modelled by its dtype and shape: the dense-backend
claims concern dtypes and state mutation, not cell values.
`astype` is modelled as replacing the dtype. -/
structure CpArray where
  dtype : DType
  nrows : Nat
  ncols : Nat
deriving DecidableEq, Repr

/-- A column role (`lightautoml_gpu.dataset.roles.ColumnRole`): its role
name (`"Numeric"`, `"Category"`, `"Datetime"`, `"Target"`, `"Drop"`, ...)
and its declared dtype. -/
structure ColumnRole where
  name : String
  dtype : DType
deriving DecidableEq, Repr

/-- `NumericRole (dtype)`. -/
def NumericRole (d : DType) : ColumnRole := ⟨"Numeric", d⟩

/-- `DropRole ()`. -/
def DropRole : ColumnRole := ⟨"Drop", dtObject⟩

/-- Mutable state of a `CupyDataset`: backing array, feature names, the
`_roles` dict and the unified `dtype`.  `oid` models Python object
identity (methods that mutate `self` keep it; a copy would get a fresh
one). -/
structure CupyState where
  oid : Nat
  data : Option CpArray
  features : List String
  roles : List (String × ColumnRole)
  dtype : Option DType
deriving DecidableEq, Repr

/-- `CupyDataset._check_dtype` (gpu_dataset.py lines 98-116), in source
order: (1) `self.dtype = cp.find_common_type (role dtypes, [])`;
(2) overwrite every role's dtype with the common dtype; (3) `assert
cp.issubdtype (self.dtype, cp.number)` — raising *after* the mutations of
(1)-(2); (4) only then cast `self.data` to the common dtype. -/
def cupyCheckDtype (s : CupyState) : CupyState × Option String :=
  let dt := findCommonType (s.roles.map (fun fr => fr.2.dtype)).dedup
  let s₁ := { s with dtype := some dt,
                     roles := s.roles.map (fun fr => (fr.1, { fr.2 with dtype := dt })) }
  if dt.isNumeric then
    let newData := Option.map
      (fun a => if a.dtype = dt then a else { a with dtype := dt }) s₁.data
    ({ s₁ with data := newData }, none)
  else
    (s₁, some "Support only numeric types in Cupy dataset.")

/-- `CupyDataset.set_data` (gpu_dataset.py lines 118-147).  The base
`LAMLDataset.set_data` it delegates to lives in `dataset/base.py`, which is
not under `src/`; it is modelled from the spec: "`set_data(data, features,
roles)` replaces the backing store in place" — it installs the new data,
features and roles, after which `_check_dtype` runs. -/
def cupySetData (s : CupyState) (data : CpArray) (features : List String)
    (roles : List (String × ColumnRole)) : CupyState × Option String :=
  cupyCheckDtype { s with data := some data, features := features, roles := roles }

lemma foldl_promote_numeric {l : List DType} {d : DType} (hd : d.isNumeric = true)
    (hl : ∀ x ∈ l, x.isNumeric = true) : (l.foldl promoteTypes d).isNumeric = true := by
  induction l generalizing d with
  | nil => exact hd
  | cons a l ih =>
      have hstep : ∀ p q : DType, p.isNumeric = true → q.isNumeric = true →
          (promoteTypes p q).isNumeric = true := by decide
      exact ih (hstep d a hd (hl a (by simp))) (fun x hx => hl x (by simp [hx]))

lemma findCommonType_numeric {l : List DType} (hne : l ≠ [])
    (hl : ∀ x ∈ l, x.isNumeric = true) : (findCommonType l).isNumeric = true := by
  cases l with
  | nil => exact absurd rfl hne
  | cons a l =>
      have hb : promoteTypes dtBool a = a := by cases a <;> rfl
      have h : findCommonType (a :: l) = l.foldl promoteTypes a := by
        simp [findCommonType, List.foldl_cons, hb]
      rw [h]
      exact foldl_promote_numeric (hl a (by simp)) (fun x hx => hl x (by simp [hx]))

lemma nonnumeric_upper {x u : DType} (hx : x.isNumeric = false) (hb : x ≠ dtBool)
    (hs : subsumes x u = true) : u.isNumeric = false := by
  have h : ∀ x u : DType, x.isNumeric = false → x ≠ dtBool →
      subsumes x u = true → u.isNumeric = false := by decide
  exact h x u hx hb hs

/-- Closed form of `cupySetData`: the state after the call, in both the
successful and the failing case. -/
lemma cupySetData_eq (s : CupyState) (data : CpArray) (features : List String)
    (roles : List (String × ColumnRole)) :
    cupySetData s data features roles =
      (if (findCommonType ((roles.map fun fr => fr.2.dtype).dedup)).isNumeric then
        ({ oid := s.oid,
           data := some ⟨findCommonType ((roles.map fun fr => fr.2.dtype).dedup),
                         data.nrows, data.ncols⟩,
           features := features,
           roles := roles.map fun fr =>
             (fr.1, ⟨fr.2.name, findCommonType ((roles.map fun fr => fr.2.dtype).dedup)⟩),
           dtype := some (findCommonType ((roles.map fun fr => fr.2.dtype).dedup)) }, none)
       else
        ({ oid := s.oid, data := some data, features := features,
           roles := roles.map fun fr =>
             (fr.1, ⟨fr.2.name, findCommonType ((roles.map fun fr => fr.2.dtype).dedup)⟩),
           dtype := some (findCommonType ((roles.map fun fr => fr.2.dtype).dedup)) },
         some "Support only numeric types in Cupy dataset.")) := by
  simp only [cupySetData, cupyCheckDtype]
  split
  · simp only [Prod.mk.injEq, and_true]
    congr 1
    cases data with
    | mk d r c =>
        simp only [Option.map_some', Option.some.injEq]
        split
        · next heq => simp_all
        · rfl
  · rfl

/-- **C2 (counterexample).** The claim says a non-numeric role dtype makes
`set_data` fail "instead of coercing".  A role of dtype `bool` is
non-numeric (`np.issubdtype (bool, np.number)` is false), yet the call
succeeds and coerces it, because the code only checks numericity of the
*common* dtype, into which `bool` promotes. -/
theorem cupy_set_data_nonnumeric_counterexample :
    (∃ fr ∈ [("a", NumericRole dtFloat32), ("b", ColumnRole.mk "Bool" dtBool)],
        (fr.2).dtype.isNumeric = false) ∧
    (cupySetData ⟨0, none, [], [], none⟩ ⟨dtBool, 2, 2⟩ ["a", "b"]
        [("a", NumericRole dtFloat32), ("b", ColumnRole.mk "Bool" dtBool)]).2 = none ∧
    (cupySetData ⟨0, none, [], [], none⟩ ⟨dtBool, 2, 2⟩ ["a", "b"]
        [("a", NumericRole dtFloat32), ("b", ColumnRole.mk "Bool" dtBool)]).1.dtype
      = some dtFloat32 := by
  refine ⟨⟨("b", ColumnRole.mk "Bool" dtBool), by simp, rfl⟩, ?_, ?_⟩ <;> rfl

/-- **C2 (amended).** On every `set_data` that succeeds, the dataset's
dtype is the narrowest common supertype (in the `subsumes` order, where a
supertype must represent every value of its subtypes — for `{int32,
float32}` this is `float64`) of all role dtypes; every role's dtype and
the backing array's dtype become that dtype.  All-numeric roles always
succeed; a role with a non-numeric dtype *other than `bool`* makes the
call fail with the type error; a `bool` role dtype is coerced instead
(the amendment the counterexample forces). -/
theorem cupy_set_data_dtype_unification
    (s : CupyState) (data : CpArray) (features : List String)
    (roles : List (String × ColumnRole)) (hne : roles ≠ []) :
    ((cupySetData s data features roles).2 = none ↔
      (findCommonType ((roles.map fun fr => fr.2.dtype).dedup)).isNumeric = true) ∧
    ((∀ fr ∈ roles, (fr.2).dtype.isNumeric = true) →
      (cupySetData s data features roles).2 = none) ∧
    ((∃ fr ∈ roles, (fr.2).dtype.isNumeric = false ∧ (fr.2).dtype ≠ dtBool) →
      (cupySetData s data features roles).2 ≠ none) ∧
    ((cupySetData s data features roles).2 = none →
      ∃ dt : DType,
        (cupySetData s data features roles).1.dtype = some dt ∧
        (∀ fr ∈ roles, subsumes (fr.2).dtype dt = true) ∧
        (∀ u : DType, u.isNumeric = true →
          (∀ fr ∈ roles, subsumes (fr.2).dtype u = true) → subsumes dt u = true) ∧
        (∀ fr ∈ (cupySetData s data features roles).1.roles, (fr.2).dtype = dt) ∧
        (cupySetData s data features roles).1.data = some ⟨dt, data.nrows, data.ncols⟩) := by
  have hiff : (cupySetData s data features roles).2 = none ↔
      (findCommonType ((roles.map fun fr => fr.2.dtype).dedup)).isNumeric = true := by
    rw [cupySetData_eq]
    split
    · next h => simpa using h
    · next h => simpa using h
  refine ⟨hiff, ?_, ?_, ?_⟩
  · intro hall
    apply hiff.mpr
    apply findCommonType_numeric
    · have : (roles.map fun fr => fr.2.dtype) ≠ [] := by
        cases roles with
        | nil => exact absurd rfl hne
        | cons a l => simp
      intro hd
      exact this ((List.dedup_eq_nil _).mp hd)
    · intro x hx
      rcases List.mem_map.mp ((List.mem_dedup).mp hx) with ⟨fr, hfr, hfx⟩
      exact hfx ▸ hall fr hfr
  · rintro ⟨fr, hfr, hnn, hnb⟩ hn
    have hub : subsumes fr.2.dtype
        (findCommonType ((roles.map fun g => g.2.dtype).dedup)) = true :=
      findCommonType_upper ((List.mem_dedup).mpr (List.mem_map.mpr ⟨fr, hfr, rfl⟩))
    have := nonnumeric_upper hnn hnb hub
    rw [hiff.mp hn] at this
    simp at this
  · intro hn
    refine ⟨findCommonType ((roles.map fun fr => fr.2.dtype).dedup), ?_, ?_, ?_, ?_, ?_⟩
    · rw [cupySetData_eq]; split
      · rfl
      · next h => exact absurd (hiff.mp hn) h
    · intro fr hfr
      exact findCommonType_upper ((List.mem_dedup).mpr (List.mem_map.mpr ⟨fr, hfr, rfl⟩))
    · intro u _ hu
      apply findCommonType_least
      intro x hx
      rcases List.mem_map.mp ((List.mem_dedup).mp hx) with ⟨fr, hfr, hfx⟩
      exact hfx ▸ hu fr hfr
    · intro fr hfr
      rw [cupySetData_eq] at hfr
      rcases (by split at hfr <;> simpa using hfr :
        fr ∈ roles.map fun g =>
          (g.1, (⟨g.2.name, findCommonType ((roles.map fun fr => fr.2.dtype).dedup)⟩ :
            ColumnRole))) with h
      rcases List.mem_map.mp h with ⟨g, _, hg⟩
      rw [← hg]
    · rw [cupySetData_eq]; split
      · rfl
      · next h => exact absurd (hiff.mp hn) h

/-- **C2 (witness).** The amended theorem at a concrete input: roles of
dtypes `{int32, float32}` succeed and unify to `float64`. -/
theorem cupy_set_data_dtype_unification_witness :
    (cupySetData ⟨0, none, [], [], none⟩ ⟨dtInt32, 1, 2⟩ ["a", "b"]
        [("a", NumericRole dtInt32), ("b", NumericRole dtFloat32)]).2 = none ∧
    (cupySetData ⟨0, none, [], [], none⟩ ⟨dtInt32, 1, 2⟩ ["a", "b"]
        [("a", NumericRole dtInt32), ("b", NumericRole dtFloat32)]).1.dtype
      = some dtFloat64 := by
  have h := cupy_set_data_dtype_unification ⟨0, none, [], [], none⟩ ⟨dtInt32, 1, 2⟩
    ["a", "b"] [("a", NumericRole dtInt32), ("b", NumericRole dtFloat32)] (by decide)
  have h2 := h.2.1 (by decide)
  rcases h.2.2.2 h2 with ⟨dt, hdt, hub, _, _, _⟩
  have : dt = dtFloat64 := by
    have hx := hub ("a", NumericRole dtInt32) (by simp)
    have hy := hub ("b", NumericRole dtFloat32) (by simp)
    revert hx hy
    have : (cupySetData ⟨0, none, [], [], none⟩ ⟨dtInt32, 1, 2⟩ ["a", "b"]
        [("a", NumericRole dtInt32), ("b", NumericRole dtFloat32)]).1.dtype
        = some dtFloat64 := by rfl
    rw [this] at hdt
    intro hx hy
    exact (Option.some.injEq _ _ ▸ hdt).symm
  exact ⟨h2, this ▸ hdt⟩

/-- **C7 (counterexample).** A failed `set_data` (non-numeric role dtype)
does leave a partially-mutated dataset visible: on this concrete input the
call raises, yet the same object (`oid` unchanged) now carries the new
data, features and roles and a recomputed dtype, all different from their
values before the call. -/
theorem cupy_set_data_partial_mutation_counterexample :
    (cupySetData ⟨7, some ⟨dtFloat32, 2, 1⟩, ["x"], [("x", NumericRole dtFloat32)],
        some dtFloat32⟩ ⟨dtInt32, 2, 2⟩ ["a", "b"]
        [("a", NumericRole dtFloat32), ("b", ColumnRole.mk "Category" dtObject)]).2
      ≠ none ∧
    (cupySetData ⟨7, some ⟨dtFloat32, 2, 1⟩, ["x"], [("x", NumericRole dtFloat32)],
        some dtFloat32⟩ ⟨dtInt32, 2, 2⟩ ["a", "b"]
        [("a", NumericRole dtFloat32), ("b", ColumnRole.mk "Category" dtObject)]).1.oid
      = 7 ∧
    (cupySetData ⟨7, some ⟨dtFloat32, 2, 1⟩, ["x"], [("x", NumericRole dtFloat32)],
        some dtFloat32⟩ ⟨dtInt32, 2, 2⟩ ["a", "b"]
        [("a", NumericRole dtFloat32), ("b", ColumnRole.mk "Category" dtObject)]).1.data
      ≠ some ⟨dtFloat32, 2, 1⟩ ∧
    (cupySetData ⟨7, some ⟨dtFloat32, 2, 1⟩, ["x"], [("x", NumericRole dtFloat32)],
        some dtFloat32⟩ ⟨dtInt32, 2, 2⟩ ["a", "b"]
        [("a", NumericRole dtFloat32), ("b", ColumnRole.mk "Category" dtObject)]).1.features
      ≠ ["x"] ∧
    (cupySetData ⟨7, some ⟨dtFloat32, 2, 1⟩, ["x"], [("x", NumericRole dtFloat32)],
        some dtFloat32⟩ ⟨dtInt32, 2, 2⟩ ["a", "b"]
        [("a", NumericRole dtFloat32), ("b", ColumnRole.mk "Category" dtObject)]).1.roles
      ≠ [("x", NumericRole dtFloat32)] ∧
    (cupySetData ⟨7, some ⟨dtFloat32, 2, 1⟩, ["x"], [("x", NumericRole dtFloat32)],
        some dtFloat32⟩ ⟨dtInt32, 2, 2⟩ ["a", "b"]
        [("a", NumericRole dtFloat32), ("b", ColumnRole.mk "Category" dtObject)]).1.dtype
      ≠ some dtFloat32 := by
  refine ⟨?_, rfl, ?_, ?_, ?_, ?_⟩ <;> decide

/-- **C7 (amended).** When `set_data` fails on a non-numeric common dtype,
the raise happens only *after* the dataset has been mutated: the same
object is left holding the new data (uncast), the new features, the new
roles with every role dtype overwritten by the computed common dtype, and
that common dtype — the partially-mutated state is visible to the
caller. -/
theorem cupy_set_data_mutates_before_raise
    (s : CupyState) (data : CpArray) (features : List String)
    (roles : List (String × ColumnRole))
    (hfail : (findCommonType ((roles.map fun fr => fr.2.dtype).dedup)).isNumeric = false) :
    cupySetData s data features roles =
      ({ oid := s.oid, data := some data, features := features,
         roles := roles.map fun fr =>
           (fr.1, ⟨fr.2.name, findCommonType ((roles.map fun g => g.2.dtype).dedup)⟩),
         dtype := some (findCommonType ((roles.map fun g => g.2.dtype).dedup)) },
       some "Support only numeric types in Cupy dataset.") := by
  rw [cupySetData_eq]
  split
  · next h => rw [hfail] at h; exact absurd h (by decide)
  · rfl

/-- **C7 (witness).** The amended theorem applied at a concrete input. -/
theorem cupy_set_data_mutates_before_raise_witness :
    cupySetData ⟨7, some ⟨dtFloat32, 2, 1⟩, ["y"], [("y", NumericRole dtFloat32)],
        some dtFloat32⟩ ⟨dtInt32, 3, 1⟩ ["c"] [("c", ColumnRole.mk "Category" dtObject)] =
      ({ oid := 7, data := some ⟨dtInt32, 3, 1⟩, features := ["c"],
         roles := [("c", ⟨"Category", dtObject⟩)], dtype := some dtObject },
       some "Support only numeric types in Cupy dataset.") := by
  have h := cupy_set_data_mutates_before_raise
    ⟨7, some ⟨dtFloat32, 2, 1⟩, ["y"], [("y", NumericRole dtFloat32)], some dtFloat32⟩
    ⟨dtInt32, 3, 1⟩ ["c"] [("c", ColumnRole.mk "Category" dtObject)] (by decide)
  simpa using h

/-- A cudf table cell.  The claims need integer and string cells; numeric
cells are carried unchanged by numeric casts (float representation plays
no role in any claim). -/
inductive Value where
  | vInt : Int → Value
  | vStr : String → Value
deriving DecidableEq, Repr

/-- Casting one cell to a dtype; `none` models the cast raising.  Any cell
casts to `object`; an integer cell casts to any non-datetime dtype; a
non-parseable string cell fails to cast to anything but `object`. -/
def castValue : Value → DType → Option Value
  | v, dtObject => some v
  | Value.vInt z, d => if d = dtDatetime then none else some (Value.vInt z)
  | Value.vStr _, _ => none

/-- Casting every cell of a column; fails if any single cell fails. -/
def castCells : List Value → DType → Option (List Value)
  | [], _ => some []
  | v :: vs, d =>
    match castValue v d, castCells vs d with
    | some w, some ws => some (w :: ws)
    | _, _ => none

/-- A cudf column: its dtype and its cells. -/
structure TColumn where
  dtype : DType
  cells : List Value
deriving DecidableEq, Repr

/-- `Series.astype (d)`: on success the column's dtype becomes `d`. -/
def castColumn (c : TColumn) (d : DType) : Option TColumn :=
  (castCells c.cells d).map fun cs => ⟨d, cs⟩

/-- The cast `DataFrame.astype (dtypes_dict)` applies to one column:
columns absent from the dict are kept as they are. -/
def castColumnTo (dts : List (String × DType)) (f : String) (c : TColumn) :
    Option TColumn :=
  match dts.lookup f with
  | none => some c
  | some d => castColumn c d

/-- `DataFrame.astype (dtypes_dict)`: all-or-nothing — if the cast of any
single column raises, the whole call raises (`none`) and no column is
converted. -/
def astypeDict : List (String × TColumn) → List (String × DType) →
    Option (List (String × TColumn))
  | [], _ => some []
  | (f, c) :: rest, dts =>
    match castColumnTo dts f c, astypeDict rest dts with
    | some c', some rest' => some ((f, c') :: rest')
    | _, _ => none

/-- `CudfDataset._check_dtype` (gpu_dataset.py lines 483-503), the dtype
coercion part: build the dtypes dict from all non-`Datetime` roles, then
`try: self.data = self.data.astype(self.dtypes) except: pass` — one
`astype` call over the whole dict inside a bare try/except.
(`DaskCudfDataset._check_dtype`, lines 1079-1100, performs the same
try/except astype, with `.persist()` appended.)  The subsequent
`_convert_datetime` touches only the `Datetime`-roled columns, which are
excluded from the dict, and is not part of the claims settled here. -/
def tableCheckDtype (roles : List (String × ColumnRole))
    (frame : List (String × TColumn)) : List (String × TColumn) :=
  let dts := (roles.filter fun fr => fr.2.name != "Datetime").map
    fun fr => (fr.1, fr.2.dtype)
  match astypeDict frame dts with
  | some f' => f'
  | none => frame

lemma astypeDict_eq_none_iff (frame : List (String × TColumn))
    (dts : List (String × DType)) :
    astypeDict frame dts = none ↔
      ∃ fc ∈ frame, castColumnTo dts fc.1 fc.2 = none := by
  induction frame with
  | nil => simp [astypeDict]
  | cons fc rest ih =>
      cases fc with
      | mk f c =>
          simp only [astypeDict]
          rcases h₁ : castColumnTo dts f c with _ | c'
          · simp [h₁]
          · rcases h₂ : astypeDict rest dts with _ | rest'
            · simp only [h₁]
              constructor
              · intro _
                rcases (ih.mp h₂) with ⟨gc, hg, hgc⟩
                exact ⟨gc, by simp [hg], hgc⟩
              · intro _; trivial
            · simp only [h₁]
              constructor
              · intro h; cases h
              · rintro ⟨gc, hg, hgc⟩
                rcases List.mem_cons.mp hg with h | h
                · rw [h] at hgc; rw [hgc] at h₁; cases h₁
                · have := ih.mpr ⟨gc, h, hgc⟩
                  rw [this] at h₂; cases h₂

lemma astypeDict_eq_some (frame f' : List (String × TColumn))
    (dts : List (String × DType)) (h : astypeDict frame dts = some f') :
    f'.map Prod.fst = frame.map Prod.fst ∧
      ∀ fc' ∈ f', ∃ fc ∈ frame,
        fc'.1 = fc.1 ∧ castColumnTo dts fc.1 fc.2 = some fc'.2 := by
  induction frame generalizing f' with
  | nil =>
      simp only [astypeDict] at h
      rcases h
      simp
  | cons fc rest ih =>
      cases fc with
      | mk f c =>
          simp only [astypeDict] at h
          rcases h₁ : castColumnTo dts f c with _ | c' <;> rw [h₁] at h
          · cases h
          · rcases h₂ : astypeDict rest dts with _ | rest' <;> rw [h₂] at h
            · cases h
            · rcases h
              rcases ih rest' h₂ with ⟨hn, hm⟩
              refine ⟨by simp [hn], ?_⟩
              intro gc hg
              rcases List.mem_cons.mp hg with hh | hh
              · exact ⟨(f, c), by simp, by rw [hh], by rw [hh]; exact h₁⟩
              · rcases hm gc hh with ⟨fc₀, h₀, he, hc⟩
                exact ⟨fc₀, by simp [h₀], he, hc⟩

lemma castColumn_dtype {c c' : TColumn} {d : DType}
    (h : castColumn c d = some c') : c'.dtype = d := by
  simp only [castColumn] at h
  rcases h₁ : castCells c.cells d with _ | cs <;> rw [h₁] at h
  · cases h
  · rcases h; rfl

/-- **C5 (counterexample).** The casts are *not* individual per column:
here column `"a"` (an `int64` column) would individually cast to its role
dtype `float32` just fine, but because column `"b"` (a string column roled
`float64`) fails, the single whole-table `astype` raises, is swallowed,
and column `"a"` also keeps its prior dtype `int64`. -/
theorem table_cast_not_per_column_counterexample :
    castColumnTo [("a", dtFloat32), ("b", dtFloat64)] "a" ⟨dtInt64, [Value.vInt 1]⟩
      = some ⟨dtFloat32, [Value.vInt 1]⟩ ∧
    castColumnTo [("a", dtFloat32), ("b", dtFloat64)] "b" ⟨dtObject, [Value.vStr "x"]⟩
      = none ∧
    tableCheckDtype [("a", NumericRole dtFloat32), ("b", NumericRole dtFloat64)]
        [("a", ⟨dtInt64, [Value.vInt 1]⟩), ("b", ⟨dtObject, [Value.vStr "x"]⟩)]
      = [("a", ⟨dtInt64, [Value.vInt 1]⟩), ("b", ⟨dtObject, [Value.vStr "x"]⟩)] ∧
    (dtInt64 ≠ dtFloat32) := by
  refine ⟨rfl, rfl, rfl, by decide⟩

/-- **C5 (amended).** Table dtype coercion attempts the cast of all
non-datetime columns as one whole-table operation inside a bare
try/except: if the cast of any single column fails, the entire cast is
abandoned and *every* column (including ones that would cast fine) keeps
its prior dtype; if every column casts, each column under a non-`Datetime`
role gets exactly its role's declared dtype.  In both cases no exception
propagates (the function is total). -/
theorem table_cast_all_or_nothing
    (roles : List (String × ColumnRole)) (frame : List (String × TColumn)) :
    ((∃ fc ∈ frame,
        castColumnTo ((roles.filter fun fr => fr.2.name != "Datetime").map
          fun fr => (fr.1, fr.2.dtype)) fc.1 fc.2 = none) →
      tableCheckDtype roles frame = frame) ∧
    ((∀ fc ∈ frame,
        castColumnTo ((roles.filter fun fr => fr.2.name != "Datetime").map
          fun fr => (fr.1, fr.2.dtype)) fc.1 fc.2 ≠ none) →
      (tableCheckDtype roles frame).map Prod.fst = frame.map Prod.fst ∧
      ∀ fc ∈ tableCheckDtype roles frame, ∀ d : DType,
        ((roles.filter fun fr => fr.2.name != "Datetime").map
          fun fr => (fr.1, fr.2.dtype)).lookup fc.1 = some d →
        (fc.2).dtype = d) := by
  constructor
  · intro hex
    have hn := (astypeDict_eq_none_iff frame _).mpr hex
    simp only [tableCheckDtype, hn]
  · intro hall
    rcases h : astypeDict frame ((roles.filter fun fr => fr.2.name != "Datetime").map
        fun fr => (fr.1, fr.2.dtype)) with _ | f'
    · rcases (astypeDict_eq_none_iff frame _).mp h with ⟨fc, hfc, hcast⟩
      exact absurd hcast (hall fc hfc)
    · have heq : tableCheckDtype roles frame = f' := by
        simp only [tableCheckDtype, h]
      rcases astypeDict_eq_some frame f' _ h with ⟨hnames, hmem⟩
      refine ⟨by rw [heq, hnames], ?_⟩
      intro fc hfc d hd
      rw [heq] at hfc
      rcases hmem fc hfc with ⟨fc₀, _, he, hc⟩
      rw [he] at hd
      simp only [castColumnTo, hd] at hc
      exact castColumn_dtype hc

/-- **C5 (witness).** The amended theorem at the counterexample's input:
the failing string column makes every column keep its prior dtype. -/
theorem table_cast_all_or_nothing_witness :
    tableCheckDtype [("a", NumericRole dtFloat32), ("b", NumericRole dtFloat64)]
        [("a", ⟨dtInt64, [Value.vInt 1]⟩), ("b", ⟨dtObject, [Value.vStr "x"]⟩)]
      = [("a", ⟨dtInt64, [Value.vInt 1]⟩), ("b", ⟨dtObject, [Value.vStr "x"]⟩)] := by
  have h := (table_cast_all_or_nothing
    [("a", NumericRole dtFloat32), ("b", NumericRole dtFloat64)]
    [("a", ⟨dtInt64, [Value.vInt 1]⟩), ("b", ⟨dtObject, [Value.vStr "x"]⟩)]).1
  exact h ⟨("b", ⟨dtObject, [Value.vStr "x"]⟩), by simp, rfl⟩

/-- Modelled from the spec: `valid_array_attributes` from
`lightautoml_gpu/dataset/base.py`, which is not under `src/`.  Spec §3
names the auxiliary array-like attributes "target, sample weight, group
id, fold id, ...". -/
def validArrayAttributes : List String := ["target", "group", "folds", "weights"]

/-- Modelled from the spec: `array_attr_roles` from
`lightautoml_gpu/dataset/base.py` (not under `src/`), the role names
paired 1:1 with `validArrayAttributes`. -/
def arrayAttrRoles : List String := ["Target", "Group", "Folds", "Weights"]

/-- The inner loop of the constructors:
`for k, r in zip(valid_array_attributes, array_attr_roles): if
roles[f].name == r` — the auxiliary-attribute key for a role, if the role
name is one of the recognized special role names. -/
def specialAttrOf (r : ColumnRole) : Option String :=
  ((validArrayAttributes.zip arrayAttrRoles).find? fun p => p.2 == r.name).map Prod.fst

/-- `data[f]`: the cells of column `f` (constructing with a special-roled
name absent from the table is a `KeyError`; the theorems assume the column
exists). -/
def colCells (data : List (String × TColumn)) (f : String) : List Value :=
  match data.lookup f with
  | some col => col.cells
  | none => []

/-- Python dict assignment `d[k] = v`: replace the binding if the key
exists, else add it. -/
def updAssoc : List (String × List Value) → String → List Value →
    List (String × List Value)
  | [], k, v => [(k, v)]
  | (k', v') :: rest, k, v =>
    if k' = k then (k', v) :: rest else (k', v') :: updAssoc rest k v

/-- The caller's `roles` dict after the constructor loop: every column
whose role name is special has its entry overwritten with `DropRole ()`
(`roles[f] = DropRole()`, gpu_dataset.py line 437 and line 1057). -/
def rolesAfterInit (roles : List (String × ColumnRole)) : List (String × ColumnRole) :=
  roles.map fun fr => (fr.1, if (specialAttrOf fr.2).isSome then DropRole else fr.2)

/-- The `kwargs` dict after the constructor loop: for every column whose
role name is special, `kwargs[k] = data[f]` (gpu_dataset.py line 436 and
line 1056); a later matching column overwrites an earlier one. -/
def kwargsAfterInit (data : List (String × TColumn))
    (roles : List (String × ColumnRole)) (kwargs : List (String × List Value)) :
    List (String × List Value) :=
  roles.foldl (fun ks fr =>
    match specialAttrOf fr.2 with
    | some k => updAssoc ks k (colCells data fr.1)
    | none => ks) kwargs

/-- Modelled from the spec: the `features` property of the table datasets
lives in the base classes (`dataset/base.py`, `np_pd_dataset.py`), which
are not under `src/`.  Spec §4.3: after construction "`features` only ever
lists ordinary feature columns" — the table's columns whose role is not
`Drop`. -/
def featuresOf (cols : List String) (roles : List (String × ColumnRole)) : List String :=
  cols.filter fun cname => (roles.lookup cname).all fun r => r.name != "Drop"

/-- State of a `CudfDataset` after construction. -/
structure CudfState where
  oid : Nat
  data : List (String × TColumn)
  features : List String
  rolesMap : List (String × ColumnRole)
  attrs : List (String × List Value)
deriving DecidableEq, Repr

/-- `CudfDataset.__init__` (gpu_dataset.py lines 422-440): extract
special-roled columns into `kwargs`, replace their roles with `DropRole`,
then `set_data(data, None, roles)` which stores the table and runs
`_check_dtype`.  The role-extraction part of `DaskCudfDataset.__init__`
(lines 1049-1057) is the identical loop.  The second component of the
result is the caller's `roles` dict after the call (the constructor
mutates it in place). -/
def cudfInit (oid : Nat) (data : List (String × TColumn))
    (roles : List (String × ColumnRole)) (kwargs : List (String × List Value)) :
    CudfState × List (String × ColumnRole) :=
  let roles' := rolesAfterInit roles
  let attrs := kwargsAfterInit data roles kwargs
  let fts := featuresOf (data.map Prod.fst) roles'
  let rmap := fts.map fun x => (x, (roles'.lookup x).getD DropRole)
  (⟨oid, tableCheckDtype rmap data, fts, rmap, attrs⟩, roles')

lemma updAssoc_lookup_self (ks : List (String × List Value)) (k : String)
    (v : List Value) : (updAssoc ks k v).lookup k = some v := by
  induction ks with
  | nil => simp [updAssoc, List.lookup]
  | cons p rest ih =>
      cases p with
      | mk k' v' =>
          simp only [updAssoc]
          by_cases h : k' = k
          · subst h; simp [List.lookup]
          · have hb : (k == k') = false := by
              simp [beq_eq_false_iff_ne]; exact fun he => h he.symm
            simp [List.lookup, hb, ih, h]

lemma updAssoc_lookup_other (ks : List (String × List Value)) (k k' : String)
    (v : List Value) (h : k ≠ k') :
    (updAssoc ks k v).lookup k' = ks.lookup k' := by
  induction ks with
  | nil =>
      have hb : (k' == k) = false := by simp [beq_eq_false_iff_ne]; exact fun he => h he.symm
      simp [updAssoc, List.lookup, hb]
  | cons p rest ih =>
      cases p with
      | mk a b =>
          simp only [updAssoc]
          by_cases ha : a = k
          · subst ha
            have hb : (k' == a) = false := by
              simp [beq_eq_false_iff_ne]; exact fun he => h he.symm
            simp [List.lookup, hb]
          · simp only [if_neg ha]
            by_cases hk : k' = a
            · subst hk; simp [List.lookup]
            · have hb : (k' == a) = false := by simp [beq_eq_false_iff_ne, hk]
              simp [List.lookup, hb, ih]

lemma kwargsAfterInit_lookup (data : List (String × TColumn))
    (roles : List (String × ColumnRole)) (ks : List (String × List Value))
    (k : String) :
    (kwargsAfterInit data roles ks).lookup k =
      match roles.reverse.find? (fun fr => specialAttrOf fr.2 == some k) with
      | some fr => some (colCells data fr.1)
      | none => ks.lookup k := by
  induction roles generalizing ks with
  | nil => simp [kwargsAfterInit]
  | cons fr rest ih =>
      have hstep : kwargsAfterInit data (fr :: rest) ks =
          kwargsAfterInit data rest
            (match specialAttrOf fr.2 with
             | some kk => updAssoc ks kk (colCells data fr.1)
             | none => ks) := rfl
      rw [hstep, ih, List.reverse_cons, List.find?_append]
      rcases hfind : rest.reverse.find? (fun g => specialAttrOf g.2 == some k)
        with _ | g <;> rw [hfind]
      · rcases hsp : specialAttrOf fr.2 with _ | kk
        · have hone : List.find? (fun g => specialAttrOf g.2 == some k) [fr] = none := by
            simp [List.find?, hsp]
          rw [hone]
          rfl
        · by_cases hk : kk = k
          · rw [hk] at hsp
            have hone : List.find? (fun g => specialAttrOf g.2 == some k) [fr]
                = some fr := by
              simp [List.find?, hsp]
            rw [hone, hk]
            exact updAssoc_lookup_self ks k (colCells data fr.1)
          · have hbk : (kk == k) = false := beq_eq_false_iff_ne.mpr hk
            have hone : List.find? (fun g => specialAttrOf g.2 == some k) [fr]
                = none := by
              simp [List.find?, hsp, hbk]
            rw [hone]
            exact updAssoc_lookup_other ks kk k (colCells data fr.1) hk
      · rfl

lemma lookup_of_mem_nodup {β : Type} {l : List (String × β)} {a : String} {b : β}
    (hmem : (a, b) ∈ l) (hnd : (l.map Prod.fst).Nodup) : l.lookup a = some b := by
  induction l with
  | nil => cases hmem
  | cons p rest ih =>
      rcases List.mem_cons.mp hmem with h | h
      · rw [← h]
        simp [List.lookup]
      · rw [List.map_cons] at hnd
        have hp : p.1 ∉ rest.map Prod.fst := (List.nodup_cons.mp hnd).1
        have hne : ¬ a = p.1 := by
          intro he
          exact hp (he ▸ List.mem_map.mpr ⟨(a, b), h, rfl⟩)
        have hb : (a == p.1) = false := beq_eq_false_iff_ne.mpr hne
        cases p with
        | mk k v =>
            simp only [List.lookup, hb]
            exact ih h (List.nodup_cons.mp hnd).2

lemma rolesAfterInit_lookup (roles : List (String × ColumnRole)) (f : String) :
    (rolesAfterInit roles).lookup f =
      (roles.lookup f).map fun r =>
        if (specialAttrOf r).isSome then DropRole else r := by
  induction roles with
  | nil => rfl
  | cons p rest ih =>
      cases p with
      | mk g r =>
          simp only [rolesAfterInit, List.map_cons]
          by_cases h : f = g
          · subst h; simp [List.lookup]
          · have hb : (f == g) = false := beq_eq_false_iff_ne.mpr h
            simp only [List.lookup, hb]
            exact ih

lemma specialAttrOf_target_iff (r : ColumnRole) :
    specialAttrOf r = some "target" ↔ r.name = "Target" := by
  constructor
  · intro h
    simp only [specialAttrOf, Option.map_eq_some'] at h
    rcases h with ⟨p, hp, hfst⟩
    have hmem := List.mem_of_find?_eq_some hp
    have hpred := List.find?_some hp
    have hzip : validArrayAttributes.zip arrayAttrRoles =
        [("target", "Target"), ("group", "Group"), ("folds", "Folds"),
         ("weights", "Weights")] := rfl
    rw [hzip] at hmem
    have hpt : p = ("target", "Target") := by
      rcases (by simpa using hmem :
          p = ("target", "Target") ∨ p = ("group", "Group") ∨
          p = ("folds", "Folds") ∨ p = ("weights", "Weights")) with h | h | h | h
      · exact h
      · rw [h] at hfst; exact absurd hfst (by decide)
      · rw [h] at hfst; exact absurd hfst (by decide)
      · rw [h] at hfst; exact absurd hfst (by decide)
    rw [hpt] at hpred
    exact (eq_of_beq hpred).symm
  · intro h
    cases r with
    | mk n d =>
        simp only at h
        rw [h]
        rfl

/-- **C3.** Constructing a table dataset (`CudfDataset.__init__`, and the
identical extraction loop in `DaskCudfDataset.__init__`) from a table and
a role mapping in which column `f` carries the Target role: the column's
cells become the `target` auxiliary attribute, the column's role is
replaced with `DropRole` in the roles dict, and the resulting dataset's
`features` list excludes the column. -/
theorem table_init_target_extraction
    (oid : Nat) (data : List (String × TColumn)) (roles : List (String × ColumnRole))
    (f : String) (r : ColumnRole) (c : TColumn)
    (hmem : (f, r) ∈ roles) (hname : r.name = "Target")
    (huniq : ∀ fr ∈ roles, (fr.2 : ColumnRole).name = "Target" → fr = (f, r))
    (hkeys : (roles.map Prod.fst).Nodup)
    (hcol : data.lookup f = some c) :
    ((cudfInit oid data roles []).1.attrs).lookup "target" = some c.cells ∧
    f ∉ (cudfInit oid data roles []).1.features ∧
    ((cudfInit oid data roles []).2).lookup f = some DropRole := by
  have hsp : specialAttrOf r = some "target" := (specialAttrOf_target_iff r).mpr hname
  have hfind : roles.reverse.find? (fun fr => specialAttrOf fr.2 == some "target")
      = some (f, r) := by
    rcases hf : roles.reverse.find? (fun fr => specialAttrOf fr.2 == some "target")
      with _ | g
    · exfalso
      have := List.find?_eq_none.mp hf (f, r) (List.mem_reverse.mpr hmem)
      simp [hsp] at this
    · have hg2 := List.find?_some hf
      have hgm := List.mem_of_find?_eq_some hf
      have hgt : g.2.name = "Target" := by
        have hgs : specialAttrOf g.2 = some "target" := by simpa using hg2
        exact (specialAttrOf_target_iff g.2).mp hgs
      rw [huniq g (List.mem_reverse.mp hgm) hgt] at hf
      exact hf
  have h1 : (kwargsAfterInit data roles []).lookup "target" = some c.cells := by
    rw [kwargsAfterInit_lookup, hfind]
    simp [colCells, hcol]
  have hlook : roles.lookup f = some r := lookup_of_mem_nodup hmem hkeys
  have hra : (rolesAfterInit roles).lookup f = some DropRole := by
    rw [rolesAfterInit_lookup, hlook]
    simp [hsp]
  have h2 : f ∉ featuresOf (data.map Prod.fst) (rolesAfterInit roles) := by
    intro hf
    have hcond := (List.mem_filter.mp hf).2
    simp [hra, DropRole] at hcond
  exact ⟨h1, h2, hra⟩

/-- **C3 (witness).** The theorem at a concrete table with a
Target-roled column `"t"` and a numeric feature column `"x"`. -/
theorem table_init_target_extraction_witness :
    ((cudfInit 0 [("t", ⟨dtFloat32, [Value.vInt 1]⟩), ("x", ⟨dtFloat32, [Value.vInt 2]⟩)]
        [("t", ⟨"Target", dtFloat32⟩), ("x", NumericRole dtFloat32)] []).1.attrs).lookup
        "target" = some [Value.vInt 1] ∧
    "t" ∉ (cudfInit 0 [("t", ⟨dtFloat32, [Value.vInt 1]⟩), ("x", ⟨dtFloat32, [Value.vInt 2]⟩)]
        [("t", ⟨"Target", dtFloat32⟩), ("x", NumericRole dtFloat32)] []).1.features ∧
    ((cudfInit 0 [("t", ⟨dtFloat32, [Value.vInt 1]⟩), ("x", ⟨dtFloat32, [Value.vInt 2]⟩)]
        [("t", ⟨"Target", dtFloat32⟩), ("x", NumericRole dtFloat32)] []).2).lookup "t"
      = some DropRole := by
  exact table_init_target_extraction 0
    [("t", ⟨dtFloat32, [Value.vInt 1]⟩), ("x", ⟨dtFloat32, [Value.vInt 2]⟩)]
    [("t", ⟨"Target", dtFloat32⟩), ("x", NumericRole dtFloat32)]
    "t" ⟨"Target", dtFloat32⟩ ⟨dtFloat32, [Value.vInt 1]⟩
    (by simp) rfl (by decide) (by decide) rfl

/-- **C10.** The constructors mutate the caller-supplied `roles` dict in
place (`roles[f] = DropRole()`): after construction the caller's dict (the
second component returned by `cudfInit`, by this file's convention for
in-place dict mutation) maps every special-roled column to `DropRole` and
keeps every other entry unchanged. -/
theorem table_init_mutates_caller_roles
    (oid : Nat) (data : List (String × TColumn))
    (roles : List (String × ColumnRole)) (kwargs : List (String × List Value)) :
    (cudfInit oid data roles kwargs).2 =
      roles.map (fun fr =>
        (fr.1, if (specialAttrOf fr.2).isSome then DropRole else fr.2)) ∧
    (∀ fr ∈ roles, (specialAttrOf fr.2).isSome = true →
      (fr.1, DropRole) ∈ (cudfInit oid data roles kwargs).2) ∧
    (∀ fr ∈ roles, specialAttrOf fr.2 = none →
      fr ∈ (cudfInit oid data roles kwargs).2) := by
  refine ⟨rfl, ?_, ?_⟩
  · intro fr hfr hsp
    show (fr.1, DropRole) ∈ rolesAfterInit roles
    have hmm := List.mem_map_of_mem
      (fun g => ((g : String × ColumnRole).1,
        if (specialAttrOf g.2).isSome then DropRole else g.2)) hfr
    simpa [rolesAfterInit, hsp] using hmm
  · intro fr hfr hsp
    show fr ∈ rolesAfterInit roles
    have hmm := List.mem_map_of_mem
      (fun g => ((g : String × ColumnRole).1,
        if (specialAttrOf g.2).isSome then DropRole else g.2)) hfr
    simpa [rolesAfterInit, hsp] using hmm

/-- **C10 (witness).** The theorem at a concrete input: the caller's dict
ends up with `("t", DropRole)` while the ordinary column is untouched. -/
theorem table_init_mutates_caller_roles_witness :
    (cudfInit 0 [("t", ⟨dtFloat32, [Value.vInt 1]⟩)]
        [("t", ⟨"Target", dtFloat32⟩), ("x", NumericRole dtFloat32)] []).2 =
      [("t", DropRole), ("x", NumericRole dtFloat32)] ∧
    ("t", DropRole) ∈ (cudfInit 0 [("t", ⟨dtFloat32, [Value.vInt 1]⟩)]
        [("t", ⟨"Target", dtFloat32⟩), ("x", NumericRole dtFloat32)] []).2 ∧
    ("x", NumericRole dtFloat32) ∈ (cudfInit 0 [("t", ⟨dtFloat32, [Value.vInt 1]⟩)]
        [("t", ⟨"Target", dtFloat32⟩), ("x", NumericRole dtFloat32)] []).2 := by
  have h := table_init_mutates_caller_roles 0 [("t", ⟨dtFloat32, [Value.vInt 1]⟩)]
    [("t", ⟨"Target", dtFloat32⟩), ("x", NumericRole dtFloat32)] []
  refine ⟨by rw [h.1]; rfl, ?_, ?_⟩
  · exact h.2.1 ("t", ⟨"Target", dtFloat32⟩) (by simp) (by decide)
  · exact h.2.2 ("x", NumericRole dtFloat32) (by simp) (by decide)

/-- State of a `DaskCudfDataset` for the conversion claim: a partitioned
table (partitioning and the dask task graph play no role there).  `oid`
models Python object identity. -/
structure DaskCudfState where
  oid : Nat
  data : List (String × TColumn)
  rolesMap : List (String × ColumnRole)
deriving DecidableEq, Repr

/-- `CupyDataset.to_cupy` (gpu_dataset.py lines 185-192): `return self`. -/
def toCupy (s : CupyState) : CupyState := s

/-- `CudfDataset.to_cudf` (gpu_dataset.py lines 654-661): `return self`. -/
def toCudf (s : CudfState) : CudfState := s

/-- `DaskCudfDataset.to_daskcudf` (gpu_dataset.py lines 1220-1229):
ignores `npartitions` and `index_ok` and `return self`. -/
def toDaskcudf (s : DaskCudfState) (npartitions : Nat) (index_ok : Bool) :
    DaskCudfState := s

/-- **C8.** The identity conversion of each backend to itself returns the
very same instance (the function returns its argument unchanged — in
particular the object identity `oid` is preserved, so no copy is made). -/
theorem identity_conversions_return_self :
    (∀ s : CupyState, toCupy s = s ∧ (toCupy s).oid = s.oid) ∧
    (∀ s : CudfState, toCudf s = s ∧ (toCudf s).oid = s.oid) ∧
    (∀ (s : DaskCudfState) (np : Nat) (ok : Bool),
      toDaskcudf s np ok = s ∧ (toDaskcudf s np ok).oid = s.oid) :=
  ⟨fun _ => ⟨rfl, rfl⟩, fun _ => ⟨rfl, rfl⟩, fun _ _ _ => ⟨rfl, rfl⟩⟩

/-- The dataset classes involved in validation-iterator dispatch, and the
subclasses declared in gpu_dataset.py; `ptOther` stands for any type not
declared in the modelled modules. -/
inductive PyType where
  | ptPandasDataset
  | ptNumpyDataset
  | ptCSRSparseDataset
  | ptCupyDataset
  | ptCupySparseDataset
  | ptCudfDataset
  | ptSeqCudfDataset
  | ptDaskCudfDataset
  | ptSeqDaskCudfDataset
  | ptOther
deriving DecidableEq, Repr, Fintype

open PyType

/-- Proper-subclass relation, read off the class declarations
(`CupyDataset(NumpyDataset)`, `CupySparseDataset(CupyDataset)`,
`CudfDataset(PandasDataset)`, `SeqCudfDataset(CudfDataset)`,
`DaskCudfDataset(CudfDataset)`, `SeqDaskCudfDataset(DaskCudfDataset)`)
and closed under transitivity. -/
def isSubclassOf : PyType → PyType → Bool
  | ptCupyDataset, ptNumpyDataset => true
  | ptCupySparseDataset, ptCupyDataset => true
  | ptCupySparseDataset, ptNumpyDataset => true
  | ptCudfDataset, ptPandasDataset => true
  | ptSeqCudfDataset, ptCudfDataset => true
  | ptSeqCudfDataset, ptPandasDataset => true
  | ptDaskCudfDataset, ptCudfDataset => true
  | ptDaskCudfDataset, ptPandasDataset => true
  | ptSeqDaskCudfDataset, ptDaskCudfDataset => true
  | ptSeqDaskCudfDataset, ptCudfDataset => true
  | ptSeqDaskCudfDataset, ptPandasDataset => true
  | _, _ => false

/-- The four iterator shapes `create_validation_iterator` can return. -/
inductive IterKind where
  | numpyIterator
  | gpuIterator
  | holdoutIterator
  | dummyIterator
deriving DecidableEq, Repr

/-- `create_validation_iterator` (validation/utils.py lines 28-71):
`if type(train) in [PandasDataset, NumpyDataset, CSRSparseDataset]` →
numpy iterator; `elif type(train) in [CupyDataset, CudfDataset,
DaskCudfDataset]` → gpu iterator; else `HoldoutIterator` when a
validation dataset is given, else `DummyIterator`.  Python's
`type(train) in [...]` is membership of the exact runtime type. -/
def createValidationIterator (train : PyType) (validGiven : Bool) : IterKind :=
  if [ptPandasDataset, ptNumpyDataset, ptCSRSparseDataset].contains train then
    IterKind.numpyIterator
  else if [ptCupyDataset, ptCudfDataset, ptDaskCudfDataset].contains train then
    IterKind.gpuIterator
  else if validGiven then IterKind.holdoutIterator
  else IterKind.dummyIterator

/-- **C9.** Dispatch is purely by exact runtime type: the numpy branch is
taken exactly on {PandasDataset, NumpyDataset, CSRSparseDataset}, the GPU
branch exactly on {CupyDataset, CudfDataset, DaskCudfDataset}, any other
type gets Holdout (validation dataset given) or Dummy (not given); in
particular the unlisted subclasses CupySparseDataset, SeqCudfDataset and
SeqDaskCudfDataset are *not* routed to their parents' branches. -/
theorem validation_iterator_type_dispatch :
    (∀ (t : PyType) (v : Bool),
      (createValidationIterator t v = IterKind.numpyIterator ↔
        (t = ptPandasDataset ∨ t = ptNumpyDataset ∨ t = ptCSRSparseDataset)) ∧
      (createValidationIterator t v = IterKind.gpuIterator ↔
        (t = ptCupyDataset ∨ t = ptCudfDataset ∨ t = ptDaskCudfDataset)) ∧
      (t ∉ [ptPandasDataset, ptNumpyDataset, ptCSRSparseDataset,
            ptCupyDataset, ptCudfDataset, ptDaskCudfDataset] →
        createValidationIterator t v =
          (if v then IterKind.holdoutIterator else IterKind.dummyIterator))) ∧
    (isSubclassOf ptCupySparseDataset ptCupyDataset = true ∧
      ∀ v, createValidationIterator ptCupySparseDataset v ≠ IterKind.gpuIterator) ∧
    (isSubclassOf ptSeqCudfDataset ptCudfDataset = true ∧
      ∀ v, createValidationIterator ptSeqCudfDataset v ≠ IterKind.gpuIterator) ∧
    (isSubclassOf ptSeqDaskCudfDataset ptDaskCudfDataset = true ∧
      ∀ v, createValidationIterator ptSeqDaskCudfDataset v ≠ IterKind.gpuIterator) ∧
    (isSubclassOf ptSeqCudfDataset ptPandasDataset = true ∧
      ∀ v, createValidationIterator ptSeqCudfDataset v ≠ IterKind.numpyIterator) := by
  decide

/-- `get_first_frame` of the sequential datasets with `k = None` (all
logical rows, all columns), for an `idx` without the NaN sentinel:
`first_frame_idx = [self.idx[i][0] for i in rows]` followed by a
positional row slice of the table, wrapped into a *plain* (non-sequential)
table dataset — the result is a bare table with no `idx`.
`SeqCudfDataset.get_first_frame` (lines 857-905) slices with `iloc`;
`SeqDaskCudfDataset.get_first_frame` (lines 1445-1494) computes the same
`first_frame_idx` and slices the same rows by label on the dense 0..N-1
index.  `none` models the `IndexError` on an empty group or an
out-of-range row. -/
def seqGetFirstFrame {ρ : Type} (table : List ρ) : List (List Nat) → Option (List ρ)
  | [] => some []
  | g :: gs =>
    match g.head? >>= (fun h => table.get? h), seqGetFirstFrame table gs with
    | some r, some rs => some (r :: rs)
    | _, _ => none

/-- **C6.** For every sequential dataset whose groups are nonempty and in
range, `get_first_frame` returns the plain table made of exactly the first
physical row of each group, one output row per logical row, in order. -/
theorem seq_get_first_frame_heads {ρ : Type} (table : List ρ) (idx : List (List Nat))
    (d : ρ) (h : ∀ g ∈ idx, ∃ a, g.head? = some a ∧ a < table.length) :
    seqGetFirstFrame table idx =
      some (idx.map fun g => table.getD (g.headD 0) d) := by
  induction idx with
  | nil => rfl
  | cons g gs ih =>
      rcases h g (by simp) with ⟨a, ha, hlt⟩
      have hgs := ih (fun g' hg' => h g' (by simp [hg']))
      cases g with
      | nil => cases ha
      | cons x xs =>
          have hax : x = a := by simpa using ha
          subst hax
          simp only [seqGetFirstFrame, List.map_cons, hgs, List.head?_cons,
            Option.bind_eq_bind, Option.some_bind, List.headD_cons]
          rw [List.get?_eq_get hlt]
          have hgd : table.getD x d = table.get ⟨x, hlt⟩ := List.getD_eq_get table d hlt
          rw [hgd]

/-- **C6 (witness).** The claim's concrete scenario: groups
`[[0,1,2],[3],[4,5]]` over a 2-column table of 6 rows; the result is the
3-row table of rows 0, 3, 4 in that order. -/
theorem seq_get_first_frame_heads_witness :
    seqGetFirstFrame
      [((1 : Int), (10 : Int)), (2, 20), (3, 30), (4, 40), (5, 50), (6, 60)]
      [[0, 1, 2], [3], [4, 5]] = some [(1, 10), (4, 40), (5, 50)] := by
  have h := seq_get_first_frame_heads
    [((1 : Int), (10 : Int)), (2, 20), (3, 30), (4, 40), (5, 50), (6, 60)]
    [[0, 1, 2], [3], [4, 5]] (0, 0)
    (by
      intro g hg
      rcases (by simpa using hg : g = [0, 1, 2] ∨ g = [3] ∨ g = [4, 5])
        with h | h | h <;> (rw [h]; exact ⟨_, rfl, by decide⟩))
  rw [h]
  rfl

/-- `sorted(list(set(rows)))`: the strictly increasing enumeration of the
distinct elements, built by ordered insertion. -/
def insertSorted (a : Nat) : List Nat → List Nat
  | [] => [a]
  | b :: l =>
    if a < b then a :: b :: l
    else if a = b then b :: l
    else b :: insertSorted a l

/-- See `insertSorted`. -/
def sortedUnique (l : List Nat) : List Nat := l.foldr insertSorted []

/-- `idx_new.append(list(np.arange(len(i)) + _c)); _c += len(i)`: group
`j` of the new `idx` is the contiguous block of positions starting at the
sum of the previous selected groups' lengths. -/
def renumber : List Nat → Nat → List (List Nat)
  | [], _ => []
  | n :: rest, c => (List.range' c n) :: renumber rest (c + n)

/-- Result of the non-slice row selection: the physical rows to keep and
the renumbered `idx`. -/
structure SeqSlice where
  rows : List Nat
  idxNew : List (List Nat)
deriving DecidableEq, Repr

/-- The non-slice branch of `SeqCudfDataset.__getitem__` (gpu_dataset.py
lines 813-824) and of `SeqDaskCudfDataset.__getitem__` (lines 1400-1411):
`temp_idx = self.idx[rows]`; the member rows of the selected groups are
flattened, the new `idx` renumbers each selected group consecutively, and
the kept physical rows are `np.array(sorted(list(set(rows))))`. -/
def seqSelect (idx : List (List Nat)) (sel : List Nat) : SeqSlice :=
  let temp := sel.map fun j => idx.getD j []
  { rows := sortedUnique temp.flatten
    idxNew := renumber (temp.map List.length) 0 }

/-- `self._get_rows(self.data, rows)`: the new backing table, made of the
physical rows at the selected (sorted unique) positions. -/
def seqNewData {ρ : Type} (table : List ρ) (rows : List Nat) (d : ρ) : List ρ :=
  rows.map fun p => table.getD p d

lemma insertSorted_of_lt {a : Nat} {l : List Nat} (h : ∀ b ∈ l, a < b) :
    insertSorted a l = a :: l := by
  cases l with
  | nil => rfl
  | cons b l => simp [insertSorted, h b (by simp)]

lemma sortedUnique_of_pairwise {l : List Nat} (h : l.Pairwise (· < ·)) :
    sortedUnique l = l := by
  induction l with
  | nil => rfl
  | cons a l ih =>
      rcases List.pairwise_cons.mp h with ⟨h₁, h₂⟩
      have : sortedUnique (a :: l) = insertSorted a (sortedUnique l) := rfl
      rw [this, ih h₂, insertSorted_of_lt h₁]

lemma renumber_length (sizes : List Nat) (c : Nat) :
    (renumber sizes c).length = sizes.length := by
  induction sizes generalizing c with
  | nil => rfl
  | cons n rest ih => simp [renumber, ih]

lemma renumber_getD (sizes : List Nat) (c j : Nat) (hj : j < sizes.length) :
    (renumber sizes c).getD j [] =
      List.range' (c + ((sizes.take j).sum)) (sizes.getD j 0) := by
  induction sizes generalizing c j with
  | nil => cases hj
  | cons n rest ih =>
      cases j with
      | zero => simp [renumber]
      | succ j =>
          have hj' : j < rest.length := Nat.lt_of_succ_lt_succ hj
          have : (renumber (n :: rest) c).getD (j + 1) [] =
              (renumber rest (c + n)).getD j [] := rfl
          rw [this, ih (c + n) j hj']
          simp [List.take_succ_cons, Nat.add_assoc]

lemma getD_map_lt {α β : Type} (f : α → β) {l : List α} {j : Nat}
    (hj : j < l.length) (d : β) (d' : α) :
    (l.map f).getD j d = f (l.getD j d') := by
  rw [List.getD_eq_get?, List.getD_eq_get?, List.get?_map, List.get?_eq_get hj]
  rfl

lemma flatten_get?_offset {α : Type} (ls : List (List α)) (j i : Nat)
    (hj : j < ls.length) (hi : i < (ls.getD j []).length) :
    ls.flatten.get? ((((ls.map List.length).take j).sum) + i) =
      (ls.getD j []).get? i := by
  induction ls generalizing j with
  | nil => cases hj
  | cons g rest ih =>
      cases j with
      | zero =>
          simp only [List.take_zero, List.sum_nil, Nat.zero_add, List.flatten_cons]
          exact List.get?_append (by simpa using hi)
      | succ j =>
          have hj' : j < rest.length := Nat.lt_of_succ_lt_succ hj
          have hsum : (((g :: rest).map List.length).take (j + 1)).sum =
              g.length + (((rest.map List.length).take j).sum) := by
            simp [List.take_succ_cons]
          rw [hsum, List.flatten_cons, Nat.add_assoc,
            List.get?_append_right (Nat.le_add_right _ _)]
          simp only [Nat.add_sub_cancel_left]
          exact ih j hj' (by simpa using hi)

lemma getD_mem_of_lt {α : Type} {l : List α} {n : Nat} (d : α) (h : n < l.length) :
    l.getD n d ∈ l := by
  rw [List.getD_eq_get?, List.get?_eq_get h]
  exact List.get_mem l n h

lemma range'_getD {c n i : Nat} (h : i < n) : (List.range' c n).getD i 0 = c + i := by
  rw [List.getD_eq_get?, List.get?_eq_get (by simpa using h)]
  simp [List.get_range']

/-- **C4 (amended).** A non-slice selection computes exactly what the
claim describes — the kept physical rows are the sorted unique flattening
of the selected groups' members, and the fresh `idx` renumbers the
selected groups 0..k as consecutive blocks of matching lengths — and it
preserves original intra-group order *provided* the concatenation of the
selected groups is strictly increasing (the condition the counterexample
forces; the code itself warns that the structure may otherwise change):
then position `i` of new group `j` holds the same row of the new table as
position `i` of selected group `j` held in the old table. -/
theorem seq_select_renumber_amended
    {ρ : Type} (idx : List (List Nat)) (sel : List Nat) (table : List ρ) (d : ρ)
    (hsel : ∀ j ∈ sel, j < idx.length) :
    (seqSelect idx sel).rows
      = sortedUnique ((sel.map fun j => idx.getD j []).flatten) ∧
    (seqSelect idx sel).idxNew.length = sel.length ∧
    (∀ j : Nat, j < sel.length →
      ((seqSelect idx sel).idxNew.getD j []).length
        = (idx.getD (sel.getD j 0) []).length) ∧
    (((sel.map fun j => idx.getD j []).flatten).Pairwise (· < ·) →
      (∀ p ∈ (sel.map fun j => idx.getD j []).flatten, p < table.length) →
      ∀ j i : Nat, j < sel.length → i < (idx.getD (sel.getD j 0) []).length →
        (seqNewData table (seqSelect idx sel).rows d).get?
            (((seqSelect idx sel).idxNew.getD j []).getD i 0)
          = table.get? ((idx.getD (sel.getD j 0) []).getD i 0)) := by
  have hgroup : ∀ j, j < sel.length →
      ((sel.map fun p => idx.getD p []).getD j []) = idx.getD (sel.getD j 0) [] :=
    fun j hj => getD_map_lt _ hj [] 0
  refine ⟨rfl, ?_, ?_, ?_⟩
  · show (renumber ((sel.map fun j => idx.getD j []).map List.length) 0).length
      = sel.length
    rw [renumber_length]
    simp
  · intro j hj
    have hjt : j < (sel.map fun p => idx.getD p []).length := by simpa using hj
    have hjm : j < ((sel.map fun p => idx.getD p []).map List.length).length := by
      simpa using hj
    show ((renumber ((sel.map fun j => idx.getD j []).map List.length) 0).getD
      j []).length = _
    rw [renumber_getD _ 0 j hjm, List.length_range',
      getD_map_lt List.length hjt 0 [], hgroup j hj]
  · intro hpw htab j i hj hi
    have hjt : j < (sel.map fun p => idx.getD p []).length := by simpa using hj
    have hjm : j < ((sel.map fun p => idx.getD p []).map List.length).length := by
      simpa using hj
    have hrows : (seqSelect idx sel).rows = (sel.map fun p => idx.getD p []).flatten :=
      sortedUnique_of_pairwise hpw
    have hlen : (((sel.map fun p => idx.getD p []).map List.length).getD j 0)
        = (idx.getD (sel.getD j 0) []).length := by
      rw [getD_map_lt List.length hjt 0 [], hgroup j hj]
    have hidx : ((seqSelect idx sel).idxNew.getD j []) =
        List.range' ((((sel.map fun p => idx.getD p []).map List.length).take j).sum)
          (((sel.map fun p => idx.getD p []).map List.length).getD j 0) := by
      have h := renumber_getD ((sel.map fun p => idx.getD p []).map List.length) 0 j hjm
      rw [Nat.zero_add] at h
      exact h
    have hpos : (((seqSelect idx sel).idxNew.getD j []).getD i 0)
        = ((((sel.map fun p => idx.getD p []).map List.length).take j).sum) + i := by
      rw [hidx, range'_getD (by rw [hlen]; exact hi)]
    rw [hpos]
    show (((seqSelect idx sel).rows).map fun p => table.getD p d).get? _ = _
    rw [List.get?_map, hrows,
      flatten_get?_offset _ j i (by simpa using hj) (by rw [hgroup j hj]; exact hi),
      hgroup j hj, List.get?_eq_get hi]
    have hgd : (idx.getD (sel.getD j 0) []).getD i 0
        = (idx.getD (sel.getD j 0) []).get ⟨i, hi⟩ := List.getD_eq_get _ _ hi
    have hp' : (idx.getD (sel.getD j 0) []).get ⟨i, hi⟩ < table.length := by
      apply htab
      apply List.mem_flatten.mpr
      refine ⟨idx.getD (sel.getD j 0) [], ?_, List.get_mem _ i hi⟩
      rw [← hgroup j hj]
      exact getD_mem_of_lt [] hjt
    rw [hgd, List.get?_eq_get hp']
    simp only [Option.map_some', Option.some.injEq]
    exact List.getD_eq_get table d hp'

/-- **C4 (counterexample).** Intra-group order is *not* preserved in
general: groups `[[1],[0]]` (disjoint, valid physical rows), selector
`[0,2) = [0,1]`.  The renumbered group 0 points at position 0 of the new
table, which holds physical row 0 (value 10), while the original group 0
was physical row 1 (value 20): the flatten/sort-unique renumbering only
matches when the concatenated selected groups are already sorted (the
code itself warns the structure may change). -/
theorem seq_select_order_counterexample :
    (seqSelect [[1], [0]] [0, 1]).rows = [0, 1] ∧
    (seqSelect [[1], [0]] [0, 1]).idxNew = [[0], [1]] ∧
    seqNewData [10, 20] (seqSelect [[1], [0]] [0, 1]).rows 0 = [10, 20] ∧
    (seqNewData [10, 20] (seqSelect [[1], [0]] [0, 1]).rows 0).get?
        (((seqSelect [[1], [0]] [0, 1]).idxNew.getD 0 []).getD 0 0) = some 10 ∧
    ([10, 20] : List Nat).get? (([[1], [0]].getD ([0, 1].getD 0 0) []).getD 0 0)
      = some 20 ∧
    some (10 : Nat) ≠ some 20 := by
  refine ⟨rfl, rfl, rfl, rfl, rfl, by decide⟩

/-- **C4 (witness).** The amended theorem at the claim's concrete
scenario: groups of sizes [3,1,2], logical rows [0,2] selected — the new
`idx` has 2 groups of sizes [3,2], the new table has exactly 5 rows, and
the correspondence instance (group 1, position 1) maps through the
theorem to the original group 2, position 1. -/
theorem seq_select_renumber_amended_witness :
    (seqSelect [[0, 1, 2], [3], [4, 5]] [0, 2]).rows = [0, 1, 2, 4, 5] ∧
    (seqSelect [[0, 1, 2], [3], [4, 5]] [0, 2]).idxNew = [[0, 1, 2], [3, 4]] ∧
    (seqSelect [[0, 1, 2], [3], [4, 5]] [0, 2]).idxNew.length = 2 ∧
    ((seqSelect [[0, 1, 2], [3], [4, 5]] [0, 2]).idxNew.getD 0 []).length = 3 ∧
    ((seqSelect [[0, 1, 2], [3], [4, 5]] [0, 2]).idxNew.getD 1 []).length = 2 ∧
    (seqNewData ([10, 20, 30, 40, 50, 60] : List Nat)
        (seqSelect [[0, 1, 2], [3], [4, 5]] [0, 2]).rows 0).length = 5 ∧
    (seqNewData ([10, 20, 30, 40, 50, 60] : List Nat)
        (seqSelect [[0, 1, 2], [3], [4, 5]] [0, 2]).rows 0).get?
        (((seqSelect [[0, 1, 2], [3], [4, 5]] [0, 2]).idxNew.getD 1 []).getD 1 0)
      = ([10, 20, 30, 40, 50, 60] : List Nat).get?
        (([[0, 1, 2], [3], [4, 5]].getD ([0, 2].getD 1 0) []).getD 1 0) := by
  have h := seq_select_renumber_amended [[0, 1, 2], [3], [4, 5]] [0, 2]
    ([10, 20, 30, 40, 50, 60] : List Nat) 0 (by decide)
  exact ⟨rfl, rfl, h.2.1, h.2.2.1 0 (by decide), h.2.2.1 1 (by decide), rfl,
    h.2.2.2 (by decide) (by decide) 1 1 (by decide) (by decide)⟩

/-- A dask_cudf table (or auxiliary Series/DataFrame) before index
normalization: an arbitrary integer row index plus the row payloads,
aligned positionally.  The payload type is abstract — the feature rows of
`data` and the rows of an auxiliary attribute alike. -/
structure DTable (α : Type) where
  index : List Int
  vals : List α

/-- A table after index normalization: a natural-number row index. -/
structure RTable (α : Type) where
  index : List Nat
  vals : List α

/-- `mapping = dict(zip(data.index.compute().values_host, np.arange(size)))`
(gpu_dataset.py line 1061): a Python dict built left to right, a later
duplicate key overwriting an earlier one; `off` is the position of the
first listed key. -/
def buildMappingAux : List Int → Nat → Int → Option Nat
  | [], _, _ => none
  | k :: rest, off, v =>
    match buildMappingAux rest (off + 1) v with
    | some r => some r
    | none => if v = k then some off else none

/-- See `buildMappingAux`. -/
def buildMapping (idx : List Int) : Int → Option Nat :=
  buildMappingAux idx 0

/-- `Series.map (mapping)` over the snapshotted index column; `none`
models a key missing from the dict (a null in the mapped column). -/
def seriesMap (idx : List Int) (m : Int → Option Nat) : Option (List Nat) :=
  match idx with
  | [] => some []
  | v :: rest =>
    match m v, seriesMap rest m with
    | some j, some js => some (j :: js)
    | _, _ => none

/-- gpu_dataset.py lines 1060-1063 for `data` and lines 1069-1073 for each
auxiliary attribute: snapshot the current index into an `"index"` column,
re-key it through `mapping`, and `set_index("index", drop=True,
sorted=True)` — with `sorted=True` the engine installs the mapped column
as the new row index without reordering the rows. -/
def daskRemap {α : Type} (t : DTable α) (m : Int → Option Nat) : Option (RTable α) :=
  (seriesMap t.index m).map fun ni => ⟨ni, t.vals⟩

lemma buildMappingAux_not_mem {idx : List Int} {v : Int} (hv : v ∉ idx) (off : Nat) :
    buildMappingAux idx off v = none := by
  induction idx generalizing off with
  | nil => rfl
  | cons k rest ih =>
      have hvr : v ∉ rest := fun h => hv (by simp [h])
      have hvk : ¬ v = k := fun h => hv (by simp [h])
      simp only [buildMappingAux, ih hvr, if_neg hvk]

lemma buildMappingAux_get {idx : List Int} (hnd : idx.Nodup) (off : Nat)
    (j : Nat) (h : j < idx.length) :
    buildMappingAux idx off (idx.get ⟨j, h⟩) = some (off + j) := by
  induction idx generalizing off j with
  | nil => cases h
  | cons k rest ih =>
      rcases List.nodup_cons.mp hnd with ⟨hk, hrest⟩
      cases j with
      | zero =>
          simp only [List.get, buildMappingAux, buildMappingAux_not_mem hk (off + 1)]
          simp
      | succ j =>
          have hj : j < rest.length := Nat.lt_of_succ_lt_succ h
          have hgr : ((k :: rest).get ⟨j + 1, h⟩) = rest.get ⟨j, hj⟩ := rfl
          rw [hgr]
          simp only [buildMappingAux, ih hrest (off + 1) j hj]
          simp [Nat.add_assoc, Nat.add_comm 1 j]

lemma seriesMap_range' {idx : List Int} {m : Int → Option Nat} (k : Nat)
    (hm : ∀ (j : Nat) (h : j < idx.length), m (idx.get ⟨j, h⟩) = some (k + j)) :
    seriesMap idx m = some (List.range' k idx.length) := by
  induction idx generalizing k with
  | nil => rfl
  | cons v rest ih =>
      have h0 : m v = some k := by
        have := hm 0 (by simp)
        simpa using this
      have hr : seriesMap rest m = some (List.range' (k + 1) rest.length) := by
        apply ih
        intro j hj
        have := hm (j + 1) (by simpa using Nat.succ_lt_succ hj)
        have hgr : ((v :: rest).get ⟨j + 1, by simpa using Nat.succ_lt_succ hj⟩)
            = rest.get ⟨j, hj⟩ := rfl
        rw [hgr] at this
        rw [this]
        congr 1
        omega
      simp only [seriesMap, h0, hr]
      rfl

/-- **C1.** `DaskCudfDataset.__init__` with `index_ok=False`, for a table
whose row index holds `N` distinct values, builds one map `mapping` that
is a bijection from the existing index values onto `0..N-1` (position of
each value; values outside the index are unmapped), and applies that
identical map to the table's row index and to every row-aligned auxiliary
attribute's row index: both end up with the dense sorted index `0..N-1`
while their row payloads stay in place, so row `i` of `data` and row `i`
of every auxiliary attribute still correspond to the same original
record, for all `i < N`. -/
theorem daskcudf_reindex_bijective_aligned {α β : Type}
    (index : List Int) (dvals : List α) (avals : List β) (hnd : index.Nodup) :
    (∀ (j : Nat) (h : j < index.length),
      buildMapping index (index.get ⟨j, h⟩) = some j) ∧
    (∀ v : Int, v ∉ index → buildMapping index v = none) ∧
    daskRemap ⟨index, dvals⟩ (buildMapping index)
      = some ⟨List.range index.length, dvals⟩ ∧
    daskRemap ⟨index, avals⟩ (buildMapping index)
      = some ⟨List.range index.length, avals⟩ := by
  have hget : ∀ (j : Nat) (h : j < index.length),
      buildMapping index (index.get ⟨j, h⟩) = some j := by
    intro j h
    have := buildMappingAux_get hnd 0 j h
    simpa [buildMapping] using this
  have hsm : seriesMap index (buildMapping index)
      = some (List.range' 0 index.length) := by
    apply seriesMap_range' 0
    intro j h
    simpa using hget j h
  have hrange : List.range' 0 index.length = List.range index.length :=
    (List.range_eq_range' index.length).symm
  refine ⟨hget, fun v hv => buildMappingAux_not_mem hv 0, ?_, ?_⟩
  · simp only [daskRemap, hsm, hrange, Option.map_some']
  · simp only [daskRemap, hsm, hrange, Option.map_some']

/-- **C1 (witness).** The theorem at a concrete table: index `[5, 2, 9]`,
data rows `["a", "b", "c"]`, an aligned target `[100, 200, 300]`. -/
theorem daskcudf_reindex_witness :
    buildMapping [5, 2, 9] 5 = some 0 ∧
    buildMapping [5, 2, 9] 9 = some 2 ∧
    buildMapping [5, 2, 9] 7 = none ∧
    daskRemap ⟨[5, 2, 9], ["a", "b", "c"]⟩ (buildMapping [5, 2, 9])
      = some ⟨[0, 1, 2], ["a", "b", "c"]⟩ ∧
    daskRemap ⟨[5, 2, 9], [100, 200, 300]⟩ (buildMapping [5, 2, 9])
      = some ⟨[0, 1, 2], [(100 : Int), 200, 300]⟩ := by
  have h := daskcudf_reindex_bijective_aligned [5, 2, 9] ["a", "b", "c"]
    ([100, 200, 300] : List Int) (by decide)
  exact ⟨h.1 0 (by decide), h.1 2 (by decide), h.2.1 7 (by decide),
    by rw [h.2.2.1]; rfl, by rw [h.2.2.2]; rfl⟩
